import Mathlib

/-!
Verification of the course-allotment core (`algo.py`): the cost model,
section expansion, cost-matrix construction and the allocation step.
Numbers are modelled as rationals; Python dicts keyed by course code are
modelled as association lists with `List.lookup`.
-/

set_option autoImplicit false

/-- Weight configuration for the cost components (the `weights` dict). -/
structure Weights where
  overall : ℚ
  ug : ℚ
  history : ℚ
  timestamp : ℚ
deriving DecidableEq

/-- Limit configuration for the assignment (the `limits` dict). -/
structure Limits where
  max_courses : ℚ
  max_ug : ℚ
  ug_semester : ℚ
  pg_semester : ℚ
deriving DecidableEq

/-- One faculty record, as consumed by `compute_cost` and `run_allotment`. -/
structure Faculty where
  name : String
  preferences : List (String × ℚ)
  courses_left : ℚ
  ug_left : ℚ
  current_semester_ug : ℚ
  current_semester_pg : ℚ
  history : List (String × ℚ)
  timestamp : ℚ
deriving DecidableEq

/-- One course requirement, as consumed by `expand_courses`: a base code, a
type string (UG or PG in well-formed data), and an optional section count
(the Python dict may omit the `sections` key, hence `Option`). -/
structure Course where
  code : String
  type' : String
  sections : Option Int
deriving DecidableEq

/-- One expanded section, as produced by `expand_courses`: the parent code is
kept in `course_code`, `code` carries the section label, and the course type
is copied from the parent requirement. -/
structure CourseSection where
  course_code : String
  code : String
  type' : String
  sec : Nat
deriving DecidableEq

/-- The cost for assigning a given section to a faculty member, following
`compute_cost` in `algo.py` line by line: preference cost, workload cost,
semester cost, history cost and timestamp cost, summed. -/
def compute_cost (faculty : Faculty) (course : CourseSection)
    (weights : Weights) (limits : Limits) : ℚ :=
  let course_code := course.course_code
  let pref_cost : ℚ :=
    match faculty.preferences.lookup course_code with
    | none => 100
    | some pref =>
        if pref = 1 then 0
        else if pref = 2 then 10
        else if pref = 3 then 20
        else 30
  let overall_penalty := weights.overall * (limits.max_courses - faculty.courses_left)
  let ug_penalty : ℚ :=
    if course.type' = "UG" then weights.ug * (limits.max_ug - faculty.ug_left) else 0
  let workload_cost := overall_penalty + ug_penalty
  let semester_cost : ℚ :=
    if course.type' = "UG" then
      (if faculty.current_semester_ug ≥ limits.ug_semester then 1000 else 0)
    else if course.type' = "PG" then
      (if faculty.current_semester_pg ≥ limits.pg_semester then 1000 else 0)
    else 0
  let history_cost := weights.history * ((faculty.history.lookup course_code).getD 0)
  let timestamp_cost : ℚ :=
    if course.type' = "UG" then weights.timestamp * faculty.timestamp
    else if course.type' = "PG" then weights.timestamp * (1 - faculty.timestamp)
    else 0
  pref_cost + workload_cost + semester_cost + history_cost + timestamp_cost

/-- Expansion of each course requirement into its sections, following
`expand_courses` in `algo.py`: the Python loop `for sec in range(1, n+1)` is
the list `List.range' 1 n.toNat = [1, ..., n]` (empty when `n ≤ 0`). -/
def expand_courses (courses : List Course) : List CourseSection :=
  courses.flatMap (fun course =>
    let num_sections := course.sections.getD 1
    let original_code := course.code
    (List.range' 1 num_sections.toNat).map (fun sec =>
      { course_code := original_code
        code := original_code ++ "-S" ++ toString sec
        type' := course.type'
        sec := sec }))

/-- A cost matrix: the numpy array of shape `(rows, cols)` with rational
entries, modelled as its shape together with the entry function. -/
structure CostMatrix where
  rows : Nat
  cols : Nat
  entry : Nat → Nat → ℚ

/-- Placeholder faculty used only to totalise list indexing. -/
def dFaculty : Faculty :=
  { name := ""
    preferences := []
    courses_left := 0
    ug_left := 0
    current_semester_ug := 0
    current_semester_pg := 0
    history := []
    timestamp := 0 }

/-- Placeholder section used only to totalise list indexing. -/
def dSection : CourseSection :=
  { course_code := "", code := "", type' := "", sec := 0 }

/-- The cost matrix over all faculty-section pairs, following
`build_cost_matrix` in `algo.py`. -/
def build_cost_matrix (faculties : List Faculty) (expanded_courses : List CourseSection)
    (weights : Weights) (limits : Limits) : CostMatrix :=
  { rows := faculties.length
    cols := expanded_courses.length
    entry := fun i j =>
      compute_cost (faculties.getD i dFaculty) (expanded_courses.getD j dSection)
        weights limits }

/-- All injective sequences of length `k` with entries drawn from `s`. -/
def injSeqs (s : List Nat) : Nat → List (List Nat)
  | 0 => [[]]
  | k + 1 => s.flatMap (fun c => (injSeqs (s.erase c) k).map (fun t => c :: t))

/-- All maximal matchings of a `F × S` bipartite assignment problem, as lists
of (row, column) pairs of length `min F S` with distinct rows and distinct
columns. -/
def allMatchings (F S : Nat) : List (List (Nat × Nat)) :=
  (injSeqs (List.range F) (min F S)).flatMap (fun rows =>
    (injSeqs (List.range S) (min F S)).map (fun cols => rows.zip cols))

/-- Total cost of a matching: the sum of the matrix entries it selects. -/
def matchCost (entry : Nat → Nat → ℚ) (m : List (Nat × Nat)) : ℚ :=
  (m.map (fun p => entry p.1 p.2)).sum

/-- First element of the list attaining the minimal value of `f`. -/
def pickMinBy {α : Type} (f : α → ℚ) : List α → Option α
  | [] => none
  | a :: l => some (l.foldl (fun b x => if f x < f b then x else b) a)

/-- Modelled from the spec: the matching primitive
`scipy.optimize.linear_sum_assignment` used by `allocate_courses` is not part
of this repository; the spec describes it as a library routine that returns a
matching of `min F S` pairs of global-minimum total cost. It is modelled here
as the first minimum-cost element in the enumeration of all maximal
matchings. -/
def linear_sum_assignment (m : CostMatrix) : List (Nat × Nat) :=
  (pickMinBy (matchCost m.entry) (allMatchings m.rows m.cols)).getD []

/-- Allocation of sections from the cost matrix, following `allocate_courses`
in `algo.py`: the matching from the assignment solver, and the column indices
of `range S` not used by the matching. -/
def allocate_courses (cost_matrix : CostMatrix) : List (Nat × Nat) × List Nat :=
  let allocation := linear_sum_assignment cost_matrix
  let assigned_sections := allocation.map Prod.snd
  let unassigned :=
    (List.range cost_matrix.cols).filter (fun j => decide (j ∉ assigned_sections))
  (allocation, unassigned)

/-- The default weight configuration hardcoded in `run_allotment`. -/
def default_weights : Weights :=
  { overall := 1, ug := 1, history := 5, timestamp := 10 }

/-- The default limit configuration hardcoded in `run_allotment`. -/
def default_limits : Limits :=
  { max_courses := 5, max_ug := 2, ug_semester := 1, pg_semester := 2 }

/-- The full pipeline, following `run_allotment` in `algo.py`: expansion,
hardcoded weights and limits, cost matrix, allocation, and resolution of
indices back to faculty names and section labels. -/
def run_allotment (faculties : List Faculty) (courses : List Course) :
    List (String × String) × List String :=
  let expanded_courses := expand_courses courses
  let weights : Weights := { overall := 1, ug := 1, history := 5, timestamp := 10 }
  let limits : Limits := { max_courses := 5, max_ug := 2, ug_semester := 1, pg_semester := 2 }
  let cost_matrix := build_cost_matrix faculties expanded_courses weights limits
  let result := allocate_courses cost_matrix
  let allocations := result.1.map (fun p =>
    ((faculties.getD p.1 dFaculty).name, (expanded_courses.getD p.2 dSection).code))
  let unallotted_sections := result.2.map (fun j =>
    (expanded_courses.getD j dSection).code)
  (allocations, unallotted_sections)

/-- Modelled from the spec: the section 6 entry point
`run_allotment(faculties, courses, weights?, limits?)` with caller-supplied
configuration, which the source file does not implement (its `run_allotment`
takes no configuration arguments). Identical to `run_allotment` except that
`weights` and `limits` are parameters. -/
def run_allotment_with (faculties : List Faculty) (courses : List Course)
    (weights : Weights) (limits : Limits) :
    List (String × String) × List String :=
  let expanded_courses := expand_courses courses
  let cost_matrix := build_cost_matrix faculties expanded_courses weights limits
  let result := allocate_courses cost_matrix
  let allocations := result.1.map (fun p =>
    ((faculties.getD p.1 dFaculty).name, (expanded_courses.getD p.2 dSection).code))
  let unallotted_sections := result.2.map (fun j =>
    (expanded_courses.getD j dSection).code)
  (allocations, unallotted_sections)

/-- A feasible maximal matching of an F-by-S assignment problem: exactly `k`
pairs, pairwise-distinct rows, pairwise-distinct columns, indices in range. -/
def IsMatching (F S k : Nat) (m : List (Nat × Nat)) : Prop :=
  m.length = k ∧ (m.map Prod.fst).Nodup ∧ (m.map Prod.snd).Nodup ∧
    ∀ p ∈ m, p.1 < F ∧ p.2 < S

instance (F S k : Nat) (m : List (Nat × Nat)) : Decidable (IsMatching F S k m) :=
  inferInstanceAs (Decidable (m.length = k ∧ (m.map Prod.fst).Nodup ∧
    (m.map Prod.snd).Nodup ∧ ∀ p ∈ m, p.1 < F ∧ p.2 < S))

/-- Preference cost as the spec words it: rank 1 gives 0, rank 2 gives 10,
rank 3 gives 20, any other present rank gives 30, an absent code gives 100. -/
def pref_cost_spec (f : Faculty) (s : CourseSection) : ℚ :=
  match f.preferences.lookup s.course_code with
  | none => 100
  | some r => if r = 1 then 0 else if r = 2 then 10 else if r = 3 then 20 else 30

/-- Workload cost as the spec words it: the overall term always, the UG term
only for UG sections. -/
def workload_cost_spec (f : Faculty) (s : CourseSection) (w : Weights) (l : Limits) : ℚ :=
  w.overall * (l.max_courses - f.courses_left) +
    (if s.type' = "UG" then w.ug * (l.max_ug - f.ug_left) else 0)

/-- Semester penalty as the spec words it: 1000 added iff the UG condition or
the PG condition holds. -/
def semester_cost_spec (f : Faculty) (s : CourseSection) (l : Limits) : ℚ :=
  if (s.type' = "UG" ∧ f.current_semester_ug ≥ l.ug_semester) ∨
      (s.type' = "PG" ∧ f.current_semester_pg ≥ l.pg_semester) then 1000 else 0

/-- History cost as the spec words it: the history weight times the count of
prior teachings of the course, 0 when absent. -/
def history_cost_spec (f : Faculty) (s : CourseSection) (w : Weights) : ℚ :=
  w.history * ((f.history.lookup s.course_code).getD 0)

/-- Timestamp cost as the spec words it: the timestamp weight times the
timestamp for UG, times one minus the timestamp for PG, 0 otherwise. -/
def timestamp_cost_spec (f : Faculty) (s : CourseSection) (w : Weights) : ℚ :=
  if s.type' = "UG" then w.timestamp * f.timestamp
  else if s.type' = "PG" then w.timestamp * (1 - f.timestamp)
  else 0

/-- Spec-side restatement of expansion per claim C5: entries grouped by source
requirement in input order, ascending 1-based section indices, label equal to
the parent code followed by "-S" and the index, `course_code` equal to the
parent code, type inherited. -/
def expand_spec (courses : List Course) : List CourseSection :=
  courses.flatMap (fun c =>
    (List.range (c.sections.getD 1).toNat).map (fun i =>
      { course_code := c.code
        code := c.code ++ "-S" ++ toString (i + 1)
        type' := c.type'
        sec := i + 1 }))

/-- Every requirement in the list has a positive section count (a missing
`sections` field counts as the default 1). -/
def sections_positive (courses : List Course) : Prop :=
  ∀ c ∈ courses, 0 < c.sections.getD 1

instance (courses : List Course) : Decidable (sections_positive courses) :=
  inferInstanceAs (Decidable (∀ c ∈ courses, 0 < c.sections.getD 1))

/-- The well-formedness constraints on a faculty record named by claim C6:
non-negative quotas and counts, positive preference ranks, non-negative
history counts, timestamp in [0, 1]. -/
def faculty_in_model (f : Faculty) : Prop :=
  0 ≤ f.courses_left ∧ 0 ≤ f.ug_left ∧ 0 ≤ f.current_semester_ug ∧
    0 ≤ f.current_semester_pg ∧ (∀ p ∈ f.preferences, 0 < p.2) ∧
    (∀ p ∈ f.history, 0 ≤ p.2) ∧ 0 ≤ f.timestamp ∧ f.timestamp ≤ 1

instance (f : Faculty) : Decidable (faculty_in_model f) :=
  inferInstanceAs (Decidable (0 ≤ f.courses_left ∧ 0 ≤ f.ug_left ∧
    0 ≤ f.current_semester_ug ∧ 0 ≤ f.current_semester_pg ∧
    (∀ p ∈ f.preferences, 0 < p.2) ∧ (∀ p ∈ f.history, 0 ≤ p.2) ∧
    0 ≤ f.timestamp ∧ f.timestamp ≤ 1))

/-- Concrete 2-by-2 cost matrix used to witness the minimality theorem. -/
def wMatrix : CostMatrix :=
  { rows := 2, cols := 2, entry := fun i j => ((i * 2 + j : Nat) : ℚ) }

/-- Concrete course list used to witness the expansion theorem. -/
def wCourses : List Course :=
  [{ code := "C1", type' := "UG", sections := some 2 },
   { code := "C2", type' := "PG", sections := none }]

/-- Faculty record refuting non-negativity of the cost: well-formed per the
data model, but with more remaining quota than the maximum. -/
def cexFaculty : Faculty :=
  { name := "A"
    preferences := [("C1", 1)]
    courses_left := 6
    ug_left := 0
    current_semester_ug := 0
    current_semester_pg := 0
    history := []
    timestamp := 1 }

/-- PG section of course C1, paired with `cexFaculty` in the counterexample. -/
def cexSection : CourseSection :=
  { course_code := "C1", code := "C1-S1", type' := "PG", sec := 1 }

/-- Faculty record used to witness the amended non-negativity theorem. -/
def wFaculty : Faculty :=
  { name := "W"
    preferences := [("C1", 2)]
    courses_left := 3
    ug_left := 1
    current_semester_ug := 1
    current_semester_pg := 0
    history := [("C1", 1)]
    timestamp := 0 }

/-- UG section of course C1, paired with `wFaculty` in the witness. -/
def wSection : CourseSection :=
  { course_code := "C1", code := "C1-S1", type' := "UG", sec := 1 }

/-- Course with an explicit zero section count: present but not a positive
integer, the case claim C7 says must raise an input error. -/
def cexCourse : Course :=
  { code := "C1", type' := "UG", sections := some 0 }

/-- Course with a negative section count, used to witness the skipping
theorem. -/
def wNegCourse : Course :=
  { code := "C9", type' := "UG", sections := some (-3) }

/-- Ordinary course used alongside `wNegCourse` in the skipping witness. -/
def wPlainCourse : Course :=
  { code := "C8", type' := "PG", sections := some 1 }

/-- First of two faculty records whose relative order under the default
configuration differs from their order under `altWeights`: with the default
history weight 5 the second record is cheaper, with history weight 0 the two
records tie and the first is chosen. -/
def facultyA9 : Faculty :=
  { name := "A"
    preferences := [("C1", 1)]
    courses_left := 5
    ug_left := 2
    current_semester_ug := 0
    current_semester_pg := 0
    history := [("C1", 1)]
    timestamp := 0 }

/-- Second record of `cexFaculties`: identical to `facultyA9` except for an
empty history. -/
def facultyB9 : Faculty :=
  { name := "B"
    preferences := [("C1", 1)]
    courses_left := 5
    ug_left := 2
    current_semester_ug := 0
    current_semester_pg := 0
    history := []
    timestamp := 0 }

def cexFaculties : List Faculty := [facultyA9, facultyB9]

/-- The single expanded section produced from `cexCourses`. -/
def cexSec9 : CourseSection :=
  { course_code := "C1", code := "C1-S1", type' := "UG", sec := 1 }

/-- One UG course with a single section, matched against `cexFaculties`. -/
def cexCourses : List Course :=
  [{ code := "C1", type' := "UG", sections := some 1 }]

/-- Alternative weight configuration (history weight zeroed) used to show the
configuration of `run_allotment` is fixed rather than caller-supplied. -/
def altWeights : Weights :=
  { overall := 1, ug := 1, history := 0, timestamp := 10 }

/-- Sum of the section counts of a requirement list, a missing `sections`
field counting as the default 1. -/
def sectionsSum (courses : List Course) : Int :=
  (courses.map (fun c => c.sections.getD 1)).sum

theorem lookup_mem {α β : Type} [BEq α] [LawfulBEq α]
    (l : List (α × β)) (k : α) (v : β) (h : l.lookup k = some v) : (k, v) ∈ l := by
  induction l with
  | nil => simp [List.lookup] at h
  | cons p l ih =>
      obtain ⟨a, b⟩ := p
      rw [List.lookup_cons] at h
      cases hk : (k == a) with
      | true =>
          rw [hk] at h
          simp only [Option.some.injEq] at h
          subst h
          have : k = a := eq_of_beq hk
          subst this
          exact List.mem_cons_self _ _
      | false =>
          rw [hk] at h
          exact List.mem_cons.mpr (Or.inr (ih h))

theorem zip_of_map_fst_snd {α β : Type} :
    ∀ (l : List (α × β)), (l.map Prod.fst).zip (l.map Prod.snd) = l
  | [] => rfl
  | p :: l => by
      obtain ⟨a, b⟩ := p
      simp [zip_of_map_fst_snd l]

theorem expand_courses_cons (c : Course) (cs : List Course) :
    expand_courses (c :: cs) =
      (List.range' 1 (c.sections.getD 1).toNat).map (fun sec =>
        { course_code := c.code
          code := c.code ++ "-S" ++ toString sec
          type' := c.type'
          sec := sec }) ++ expand_courses cs := rfl

theorem mem_injSeqs (k : Nat) : ∀ (s : List Nat), s.Nodup → ∀ (t : List Nat),
    (t ∈ injSeqs s k ↔ t.length = k ∧ t.Nodup ∧ ∀ x ∈ t, x ∈ s) := by
  induction k with
  | zero =>
      intro s _ t
      constructor
      · intro h
        simp only [injSeqs, List.mem_singleton] at h
        subst h
        simp
      · rintro ⟨hlen, -, -⟩
        rw [List.length_eq_zero] at hlen
        subst hlen
        simp [injSeqs]
  | succ k ih =>
      intro s hs t
      constructor
      · intro h
        simp only [injSeqs, List.mem_flatMap, List.mem_map] at h
        obtain ⟨c, hc, t', ht', rfl⟩ := h
        obtain ⟨hlen, hnd, hmem⟩ := (ih (s.erase c) (hs.erase c) t').mp ht'
        refine ⟨by simp [hlen], ?_, ?_⟩
        · refine List.nodup_cons.mpr ⟨?_, hnd⟩
          intro hcmem
          exact (hs.mem_erase_iff.mp (hmem c hcmem)).1 rfl
        · intro x hx
          rcases List.mem_cons.mp hx with rfl | hx
          · exact hc
          · exact List.erase_subset _ _ (hmem x hx)
      · rintro ⟨hlen, hnd, hmem⟩
        cases t with
        | nil => simp at hlen
        | cons c t' =>
            simp only [injSeqs, List.mem_flatMap, List.mem_map]
            refine ⟨c, hmem c (List.mem_cons_self _ _), t', ?_, rfl⟩
            apply (ih (s.erase c) (hs.erase c) t').mpr
            obtain ⟨hc, hnd'⟩ := List.nodup_cons.mp hnd
            refine ⟨by simpa using hlen, hnd', ?_⟩
            intro x hx
            refine hs.mem_erase_iff.mpr ⟨?_, hmem x (List.mem_cons.mpr (Or.inr hx))⟩
            rintro rfl
            exact hc hx

theorem take_mem_injSeqs (s : List Nat) (hs : s.Nodup) (k : Nat) (hk : k ≤ s.length) :
    s.take k ∈ injSeqs s k :=
  (mem_injSeqs k s hs _).mpr
    ⟨by rw [List.length_take]; exact Nat.min_eq_left hk,
      List.Nodup.sublist (List.take_sublist k s) hs,
      fun x hx => List.take_subset k s hx⟩

theorem allMatchings_ne_nil (F S : Nat) : allMatchings F S ≠ [] := by
  have h1 : (List.range F).take (min F S) ∈ injSeqs (List.range F) (min F S) :=
    take_mem_injSeqs _ (List.nodup_range F) _
      (by rw [List.length_range]; exact Nat.min_le_left F S)
  have h2 : (List.range S).take (min F S) ∈ injSeqs (List.range S) (min F S) :=
    take_mem_injSeqs _ (List.nodup_range S) _
      (by rw [List.length_range]; exact Nat.min_le_right F S)
  have hmem : ((List.range F).take (min F S)).zip ((List.range S).take (min F S)) ∈
      allMatchings F S := by
    simp only [allMatchings, List.mem_flatMap, List.mem_map]
    exact ⟨_, h1, _, h2, rfl⟩
  exact List.ne_nil_of_mem hmem

theorem foldlMin_mem {α : Type} (f : α → ℚ) (l : List α) :
    ∀ (a : α), l.foldl (fun b x => if f x < f b then x else b) a ∈ a :: l := by
  induction l with
  | nil => intro a; simp
  | cons x l ih =>
      intro a
      rw [List.foldl_cons]
      rcases List.mem_cons.mp (ih (if f x < f a then x else a)) with h | h
      · rw [h]
        split
        · exact List.mem_cons.mpr (Or.inr (List.mem_cons_self x l))
        · exact List.mem_cons_self a _
      · exact List.mem_cons.mpr (Or.inr (List.mem_cons.mpr (Or.inr h)))

theorem foldlMin_le {α : Type} (f : α → ℚ) (l : List α) :
    ∀ (a : α), f (l.foldl (fun b x => if f x < f b then x else b) a) ≤ f a ∧
      ∀ x ∈ l, f (l.foldl (fun b x => if f x < f b then x else b) a) ≤ f x := by
  induction l with
  | nil => intro a; simp
  | cons x l ih =>
      intro a
      rw [List.foldl_cons]
      obtain ⟨h1, h2⟩ := ih (if f x < f a then x else a)
      have hstep : f (if f x < f a then x else a) ≤ f a ∧
          f (if f x < f a then x else a) ≤ f x := by
        by_cases hx : f x < f a
        · rw [if_pos hx]; exact ⟨le_of_lt hx, le_refl _⟩
        · rw [if_neg hx]; exact ⟨le_refl _, le_of_not_lt hx⟩
      refine ⟨le_trans h1 hstep.1, ?_⟩
      intro y hy
      rcases List.mem_cons.mp hy with rfl | hy
      · exact le_trans h1 hstep.2
      · exact h2 y hy

theorem linear_sum_assignment_mem (M : CostMatrix) :
    linear_sum_assignment M ∈ allMatchings M.rows M.cols := by
  obtain ⟨a, l, h⟩ := List.exists_cons_of_ne_nil (allMatchings_ne_nil M.rows M.cols)
  unfold linear_sum_assignment
  rw [h]
  simp only [pickMinBy, Option.getD_some]
  exact foldlMin_mem _ l a

theorem linear_sum_assignment_min (M : CostMatrix) (m : List (Nat × Nat))
    (hm : m ∈ allMatchings M.rows M.cols) :
    matchCost M.entry (linear_sum_assignment M) ≤ matchCost M.entry m := by
  obtain ⟨a, l, h⟩ := List.exists_cons_of_ne_nil (allMatchings_ne_nil M.rows M.cols)
  rw [h] at hm
  unfold linear_sum_assignment
  rw [h]
  simp only [pickMinBy, Option.getD_some]
  obtain ⟨h1, h2⟩ := foldlMin_le (matchCost M.entry) l a
  rcases List.mem_cons.mp hm with rfl | hy
  · exact h1
  · exact h2 m hy

theorem isMatching_of_mem_allMatchings (F S : Nat) (m : List (Nat × Nat))
    (h : m ∈ allMatchings F S) : IsMatching F S (min F S) m := by
  simp only [allMatchings, List.mem_flatMap, List.mem_map] at h
  obtain ⟨rows, hrows, cols, hcols, rfl⟩ := h
  obtain ⟨hrl, hrnd, hrmem⟩ := (mem_injSeqs _ _ (List.nodup_range F) _).mp hrows
  obtain ⟨hcl, hcnd, hcmem⟩ := (mem_injSeqs _ _ (List.nodup_range S) _).mp hcols
  have hfst : (rows.zip cols).map Prod.fst = rows :=
    List.map_fst_zip rows cols (by rw [hrl, hcl])
  have hsnd : (rows.zip cols).map Prod.snd = cols :=
    List.map_snd_zip rows cols (by rw [hrl, hcl])
  refine ⟨?_, ?_, ?_, ?_⟩
  · rw [List.length_zip, hrl, hcl]; exact min_self _
  · rw [hfst]; exact hrnd
  · rw [hsnd]; exact hcnd
  · intro p hp
    obtain ⟨a, b⟩ := p
    obtain ⟨ha, hb⟩ := List.of_mem_zip hp
    exact ⟨List.mem_range.mp (hrmem a ha), List.mem_range.mp (hcmem b hb)⟩

theorem mem_allMatchings_of_isMatching (F S : Nat) (m : List (Nat × Nat))
    (h : IsMatching F S (min F S) m) : m ∈ allMatchings F S := by
  obtain ⟨hlen, hfnd, hsnd, hmem⟩ := h
  simp only [allMatchings, List.mem_flatMap, List.mem_map]
  refine ⟨m.map Prod.fst, ?_, m.map Prod.snd, ?_, zip_of_map_fst_snd m⟩
  · refine (mem_injSeqs _ _ (List.nodup_range F) _).mpr ⟨by simp [hlen], hfnd, ?_⟩
    intro x hx
    obtain ⟨p, hp, rfl⟩ := List.mem_map.mp hx
    exact List.mem_range.mpr (hmem p hp).1
  · refine (mem_injSeqs _ _ (List.nodup_range S) _).mpr ⟨by simp [hlen], hsnd, ?_⟩
    intro x hx
    obtain ⟨p, hp, rfl⟩ := List.mem_map.mp hx
    exact List.mem_range.mpr (hmem p hp).2

theorem compute_cost_components (f : Faculty) (s : CourseSection)
    (w : Weights) (l : Limits) :
    compute_cost f s w l =
      pref_cost_spec f s + workload_cost_spec f s w l + semester_cost_spec f s l +
        history_cost_spec f s w + timestamp_cost_spec f s w := by
  have hne : ("UG" : String) ≠ "PG" := by decide
  have hne2 : ("PG" : String) ≠ "UG" := by decide
  unfold compute_cost pref_cost_spec workload_cost_spec semester_cost_spec
    history_cost_spec timestamp_cost_spec
  by_cases hug : s.type' = "UG"
  · simp [hug, hne]
  · by_cases hpg : s.type' = "PG"
    · simp [hpg, hne2]
    · simp [hug, hpg]

/-- Claim C1: for every faculty record, expanded section, weights and limits,
`compute_cost` returns exactly the sum of the five components the spec
describes: preference cost, workload cost (overall term plus UG term for UG
sections), the 1000 semester penalty added iff the UG or the PG semester
condition holds, history cost, and the UG/PG/other timestamp cost. -/
theorem compute_cost_five_components (f : Faculty) (s : CourseSection)
    (w : Weights) (l : Limits) :
    compute_cost f s w l =
      pref_cost_spec f s + workload_cost_spec f s w l + semester_cost_spec f s l +
        history_cost_spec f s w + timestamp_cost_spec f s w :=
  compute_cost_components f s w l

/-- Claim C2: the allocation computed by `allocate_courses` has globally
minimum total cost among all matchings that use each row at most once, each
column at most once, and cover `min F S` pairs. -/
theorem allocate_courses_global_min (M : CostMatrix) (m : List (Nat × Nat))
    (hm : IsMatching M.rows M.cols (min M.rows M.cols) m) :
    matchCost M.entry (allocate_courses M).1 ≤ matchCost M.entry m :=
  linear_sum_assignment_min M m (mem_allMatchings_of_isMatching _ _ m hm)

theorem allocate_courses_global_min_witness :
    IsMatching wMatrix.rows wMatrix.cols (min wMatrix.rows wMatrix.cols)
        [(0, 1), (1, 0)] ∧
      matchCost wMatrix.entry (allocate_courses wMatrix).1 ≤
        matchCost wMatrix.entry [(0, 1), (1, 0)] :=
  ⟨by decide, allocate_courses_global_min wMatrix [(0, 1), (1, 0)] (by decide)⟩

/-- Claim C3: for every cost matrix, the allocation returned by
`allocate_courses` contains exactly `min F S` pairs, with pairwise-distinct
row indices and pairwise-distinct column indices. -/
theorem allocate_courses_feasible (M : CostMatrix) :
    (allocate_courses M).1.length = min M.rows M.cols ∧
      ((allocate_courses M).1.map Prod.fst).Nodup ∧
      ((allocate_courses M).1.map Prod.snd).Nodup := by
  obtain ⟨hlen, hf, hs, -⟩ :=
    isMatching_of_mem_allMatchings _ _ _ (linear_sum_assignment_mem M)
  exact ⟨hlen, hf, hs⟩

/-- Claim C4: for every cost matrix, the unassigned list of
`allocate_courses` together with the matched column indices partitions the
column range: a column index is below `cols` iff it is unassigned or matched,
never both, and the unassigned list has no duplicates. -/
theorem allocate_courses_unassigned_partition (M : CostMatrix) (j : Nat) :
    ((j ∈ (allocate_courses M).2 ∨ j ∈ (allocate_courses M).1.map Prod.snd) ↔
        j < M.cols) ∧
      ¬(j ∈ (allocate_courses M).2 ∧ j ∈ (allocate_courses M).1.map Prod.snd) ∧
      (allocate_courses M).2.Nodup := by
  obtain ⟨-, -, -, hrange⟩ :=
    isMatching_of_mem_allMatchings _ _ _ (linear_sum_assignment_mem M)
  have hcol : ∀ x ∈ (linear_sum_assignment M).map Prod.snd, x < M.cols := by
    intro x hx
    obtain ⟨p, hp, rfl⟩ := List.mem_map.mp hx
    exact (hrange p hp).2
  have h2 : (allocate_courses M).2 = (List.range M.cols).filter
      (fun j => decide (j ∉ (linear_sum_assignment M).map Prod.snd)) := rfl
  have h1 : (allocate_courses M).1 = linear_sum_assignment M := rfl
  rw [h1, h2]
  refine ⟨⟨?_, ?_⟩, ?_, ?_⟩
  · rintro (h | h)
    · exact List.mem_range.mp (List.mem_filter.mp h).1
    · exact hcol j h
  · intro hj
    by_cases hin : j ∈ (linear_sum_assignment M).map Prod.snd
    · exact Or.inr hin
    · exact Or.inl (List.mem_filter.mpr ⟨List.mem_range.mpr hj, decide_eq_true hin⟩)
  · rintro ⟨ha, hb⟩
    have hdec := (List.mem_filter.mp ha).2
    rw [decide_eq_true_iff] at hdec
    exact hdec hb
  · exact List.Nodup.filter _ (List.nodup_range M.cols)

theorem expand_courses_length_int (courses : List Course) :
    sections_positive courses →
      ((expand_courses courses).length : Int) = sectionsSum courses := by
  induction courses with
  | nil => intro _; simp [expand_courses, sectionsSum]
  | cons c cs ih =>
      intro h
      have hc : 0 < c.sections.getD 1 := h c (List.mem_cons_self _ _)
      have hcs : sections_positive cs := fun x hx => h x (List.mem_cons.mpr (Or.inr hx))
      rw [expand_courses_cons, List.length_append, List.length_map, List.length_range']
      unfold sectionsSum
      rw [List.map_cons, List.sum_cons]
      have htail := ih hcs
      unfold sectionsSum at htail
      rw [← htail]
      push_cast
      rw [Int.toNat_of_nonneg (le_of_lt hc)]

theorem expand_courses_eq_expand_spec (courses : List Course) :
    expand_courses courses = expand_spec courses := by
  induction courses with
  | nil => rfl
  | cons c cs ih =>
      have hspec : expand_spec (c :: cs) =
          (List.range (c.sections.getD 1).toNat).map (fun i =>
            { course_code := c.code
              code := c.code ++ "-S" ++ toString (i + 1)
              type' := c.type'
              sec := i + 1 }) ++ expand_spec cs := rfl
      rw [expand_courses_cons, hspec, ih]
      congr 1
      rw [List.range'_eq_map_range, List.map_map]
      apply List.map_congr_left
      intro i _
      show ({ course_code := c.code
              code := c.code ++ "-S" ++ toString (1 + i)
              type' := c.type'
              sec := 1 + i } : CourseSection) = _
      rw [Nat.add_comm 1 i]

/-- Claim C5: for every list of requirements with positive (or defaulted)
section counts, expansion produces exactly the sum of the section counts in
entries, in stable order grouped by source requirement with ascending 1-based
indices, each entry labelled by the parent code, "-S" and its index, and
carrying the parent code in `course_code`. -/
theorem expand_courses_count_and_order (courses : List Course)
    (h : sections_positive courses) :
    ((expand_courses courses).length : Int) = sectionsSum courses ∧
      expand_courses courses = expand_spec courses :=
  ⟨expand_courses_length_int courses h, expand_courses_eq_expand_spec courses⟩

theorem expand_courses_count_and_order_witness :
    sections_positive wCourses ∧
      (((expand_courses wCourses).length : Int) = sectionsSum wCourses ∧
        expand_courses wCourses = expand_spec wCourses) :=
  ⟨by decide, expand_courses_count_and_order wCourses (by decide)⟩

/-- Claim C6 (amended): the cost is non-negative for well-formed records
under the default configuration provided the remaining quotas do not exceed
the configured maxima; without those two bounds the claim fails, see the
counterexample. -/
theorem compute_cost_nonneg_within_limits (f : Faculty) (s : CourseSection)
    (hf : faculty_in_model f) (hcl : f.courses_left ≤ default_limits.max_courses)
    (hug : f.ug_left ≤ default_limits.max_ug) :
    0 ≤ compute_cost f s default_weights default_limits := by
  obtain ⟨h1, h2, h3, h4, h5, h6, h7, h8⟩ := hf
  have hcl5 : f.courses_left ≤ 5 := by simpa [default_limits] using hcl
  have hug2 : f.ug_left ≤ 2 := by simpa [default_limits] using hug
  rw [compute_cost_components]
  have hp : 0 ≤ pref_cost_spec f s := by
    unfold pref_cost_spec
    rcases f.preferences.lookup s.course_code with _ | r
    · norm_num
    · dsimp only
      split_ifs <;> norm_num
  have hw : 0 ≤ workload_cost_spec f s default_weights default_limits := by
    unfold workload_cost_spec
    simp only [default_weights, default_limits]
    split_ifs <;> linarith
  have hsem : 0 ≤ semester_cost_spec f s default_limits := by
    unfold semester_cost_spec
    split_ifs <;> norm_num
  have hhist : 0 ≤ history_cost_spec f s default_weights := by
    unfold history_cost_spec
    simp only [default_weights]
    rcases hl : f.history.lookup s.course_code with _ | v
    · norm_num
    · have hv : 0 ≤ v := h6 (s.course_code, v) (lookup_mem _ _ _ hl)
      simpa using mul_nonneg (by norm_num : (0:ℚ) ≤ 5) hv
  have hts : 0 ≤ timestamp_cost_spec f s default_weights := by
    unfold timestamp_cost_spec
    simp only [default_weights]
    split_ifs
    · exact mul_nonneg (by norm_num) h7
    · have : (0:ℚ) ≤ 1 - f.timestamp := by linarith
      exact mul_nonneg (by norm_num) this
    · exact le_refl 0
  exact add_nonneg (add_nonneg (add_nonneg (add_nonneg hp hw) hsem) hhist) hts

theorem compute_cost_nonneg_within_limits_witness :
    faculty_in_model wFaculty ∧
      wFaculty.courses_left ≤ default_limits.max_courses ∧
      wFaculty.ug_left ≤ default_limits.max_ug ∧
      0 ≤ compute_cost wFaculty wSection default_weights default_limits :=
  ⟨by decide, by decide, by decide,
    compute_cost_nonneg_within_limits wFaculty wSection (by decide) (by decide)
      (by decide)⟩

/-- Counterexample to claim C6 as stated: a record meeting every constraint
the claim lists (non-negative quotas and counts, timestamp in [0, 1],
positive ranks) paired with a PG section yields cost -1 under the default
configuration, because the remaining overall quota 6 exceeds the maximum 5
and the workload term goes negative. -/
theorem compute_cost_negative_cex :
    faculty_in_model cexFaculty ∧
      compute_cost cexFaculty cexSection default_weights default_limits < 0 := by
  refine ⟨by decide, ?_⟩
  have hne : ("PG" : String) ≠ "UG" := by decide
  norm_num [compute_cost, cexFaculty, cexSection, default_weights, default_limits,
    List.lookup, hne]

/-- Counterexample to claim C7: on a requirement whose `sections` field is
present but equal to zero (not a positive integer), `expand_courses` returns
normally with an empty expansion; no input error is raised, and the source
defines no `InvalidInputError` anywhere. -/
theorem expand_courses_zero_sections_cex : expand_courses [cexCourse] = [] := rfl

/-- Claim C7 (amended): the core performs no input validation and defines no
`InvalidInputError`: `expand_courses` is total, and a requirement whose
`sections` value is zero or negative is silently dropped, so the output
equals the expansion of just the positive-count requirements. -/
theorem expand_courses_no_validation (courses : List Course) :
    expand_courses courses =
      expand_courses (courses.filter (fun c => decide (0 < c.sections.getD 1))) := by
  induction courses with
  | nil => rfl
  | cons c cs ih =>
      rw [List.filter_cons]
      by_cases hc : 0 < c.sections.getD 1
      · rw [if_pos (decide_eq_true hc), expand_courses_cons, expand_courses_cons, ih]
      · rw [if_neg (by simpa using hc), expand_courses_cons,
          Int.toNat_of_nonpos (le_of_not_lt hc)]
        simp [ih]

/-- Claim C10: `expand_courses` is total on the embedded records (it returns
a list for every input, raising nothing), and a requirement whose section
count is zero or negative contributes zero entries: removing it from
anywhere in the list leaves the output unchanged. -/
theorem expand_courses_skips_nonpositive (cs₁ cs₂ : List Course) (c : Course)
    (h : c.sections.getD 1 ≤ 0) :
    expand_courses (cs₁ ++ c :: cs₂) = expand_courses (cs₁ ++ cs₂) := by
  unfold expand_courses
  simp only [List.flatMap_append, List.flatMap_cons]
  rw [Int.toNat_of_nonpos h]
  simp

theorem expand_courses_skips_nonpositive_witness :
    wNegCourse.sections.getD 1 ≤ 0 ∧
      expand_courses ([wPlainCourse] ++ wNegCourse :: []) =
        expand_courses ([wPlainCourse] ++ []) :=
  ⟨by decide, expand_courses_skips_nonpositive [wPlainCourse] [] wNegCourse (by decide)⟩

theorem allocate_courses_2x1 (e : Nat → Nat → ℚ) :
    allocate_courses ⟨2, 1, e⟩ =
      (if e 1 0 < e 0 0 then [(1, 0)] else [(0, 0)], []) := by
  have hall : allMatchings 2 1 = [[(0, 0)], [(1, 0)]] := by decide
  unfold allocate_courses linear_sum_assignment
  simp only [hall, pickMinBy, List.foldl_cons, List.foldl_nil, Option.getD_some,
    matchCost, List.map_cons, List.map_nil, List.sum_cons, List.sum_nil, add_zero]
  by_cases h : e 1 0 < e 0 0
  · rw [if_pos h]; decide
  · rw [if_neg h]; decide

theorem run_allotment_with_cex_eval (w : Weights) (l : Limits) :
    run_allotment_with cexFaculties cexCourses w l =
      (if compute_cost facultyB9 cexSec9 w l < compute_cost facultyA9 cexSec9 w l
          then [("B", "C1-S1")] else [("A", "C1-S1")], []) := by
  have h1 : run_allotment_with cexFaculties cexCourses w l =
      ((allocate_courses ⟨2, 1, fun i j =>
          compute_cost (cexFaculties.getD i dFaculty)
            ((expand_courses cexCourses).getD j dSection) w l⟩).1.map (fun p =>
          ((cexFaculties.getD p.1 dFaculty).name,
            ((expand_courses cexCourses).getD p.2 dSection).code)),
        (allocate_courses ⟨2, 1, fun i j =>
          compute_cost (cexFaculties.getD i dFaculty)
            ((expand_courses cexCourses).getD j dSection) w l⟩).2.map (fun j =>
          ((expand_courses cexCourses).getD j dSection).code)) := rfl
  by_cases h : compute_cost facultyB9 cexSec9 w l < compute_cost facultyA9 cexSec9 w l
  · have h2 : allocate_courses ⟨2, 1, fun i j =>
        compute_cost (cexFaculties.getD i dFaculty)
          ((expand_courses cexCourses).getD j dSection) w l⟩ = ([(1, 0)], []) := by
      rw [allocate_courses_2x1]
      show (if compute_cost facultyB9 cexSec9 w l <
            compute_cost facultyA9 cexSec9 w l
          then [((1 : Nat), (0 : Nat))] else [(0, 0)], ([] : List Nat)) = ([(1, 0)], [])
      rw [if_pos h]
    rw [h1, h2, if_pos h]
    rfl
  · have h2 : allocate_courses ⟨2, 1, fun i j =>
        compute_cost (cexFaculties.getD i dFaculty)
          ((expand_courses cexCourses).getD j dSection) w l⟩ = ([(0, 0)], []) := by
      rw [allocate_courses_2x1]
      show (if compute_cost facultyB9 cexSec9 w l <
            compute_cost facultyA9 cexSec9 w l
          then [((1 : Nat), (0 : Nat))] else [(0, 0)], ([] : List Nat)) = ([(0, 0)], [])
      rw [if_neg h]
    rw [h1, h2, if_neg h]
    rfl

theorem run_allotment_cex_default_eval :
    run_allotment cexFaculties cexCourses = ([("B", "C1-S1")], []) := by
  have hA : compute_cost facultyA9 cexSec9 default_weights default_limits = 5 := by
    norm_num [compute_cost, facultyA9, cexSec9, default_weights, default_limits,
      List.lookup]
  have hB : compute_cost facultyB9 cexSec9 default_weights default_limits = 0 := by
    norm_num [compute_cost, facultyB9, cexSec9, default_weights, default_limits,
      List.lookup]
  have h := run_allotment_with_cex_eval default_weights default_limits
  rw [hA, hB] at h
  rw [show run_allotment cexFaculties cexCourses =
      run_allotment_with cexFaculties cexCourses default_weights default_limits from rfl,
    h]
  norm_num

theorem run_allotment_cex_alt_eval :
    run_allotment_with cexFaculties cexCourses altWeights default_limits =
      ([("A", "C1-S1")], []) := by
  have hA : compute_cost facultyA9 cexSec9 altWeights default_limits = 0 := by
    norm_num [compute_cost, facultyA9, cexSec9, altWeights, default_limits,
      List.lookup]
  have hB : compute_cost facultyB9 cexSec9 altWeights default_limits = 0 := by
    norm_num [compute_cost, facultyB9, cexSec9, altWeights, default_limits,
      List.lookup]
  have h := run_allotment_with_cex_eval altWeights default_limits
  rw [hA, hB] at h
  rw [h]
  norm_num

/-- Counterexample to claim C9: `run_allotment` takes no configuration
arguments; on this concrete input its result coincides with the configurable
pipeline at the hardcoded default configuration and differs from the result
the caller would get under `altWeights`, so the configuration is fixed inside
the core rather than caller-supplied. -/
theorem run_allotment_hardcoded_config_cex :
    run_allotment cexFaculties cexCourses =
        run_allotment_with cexFaculties cexCourses default_weights default_limits ∧
      run_allotment cexFaculties cexCourses ≠
        run_allotment_with cexFaculties cexCourses altWeights default_limits := by
  refine ⟨rfl, ?_⟩
  rw [run_allotment_cex_default_eval, run_allotment_cex_alt_eval]
  decide

/-- Claim C9 (amended): `run_allotment` accepts no weights or limits
arguments; it behaves exactly as the configurable pipeline fixed at the
default configuration, which is hardcoded inside it. -/
theorem run_allotment_uses_default_config (faculties : List Faculty)
    (courses : List Course) :
    run_allotment faculties courses =
      run_allotment_with faculties courses default_weights default_limits := rfl
